import Mathlib

/-!
  # Verification of the `SimpleGreedyExamSolver` core (Exam_automation)

  A shallow embedding of the hidden-assignment discovery engine in
  `src/algorithm.py` (class `SimpleGreedyExamSolver`), the final fill-in of
  `solve`, the checkpoint load/save pair, and `deduce_best_options` from
  `src/exam_automation.py`.  Python dictionaries keyed by small integers are
  modelled as insertion-ordered association lists (`List (Nat × _)`), Python
  lists as `List`, `None`-able cells as `Option`, and the oracle callback as
  a stream of responses consumed one per call.  Randomness (`random.choice`)
  is modelled by explicit selector arguments indexing the candidate lists.
  The single re-entrant piece of I/O, `time.sleep`, has no bearing on any
  state transition and is dropped.
-/

namespace ExamSolver

/-! ## Score interpretation (`try_option_for_question`, lines 212-235)

  `re.search(r'(\d+)\s*/\s*\d+', s)` on an ASCII string: the first maximal
  digit run that is followed by optional whitespace, a slash, optional
  whitespace and a digit; the run is the captured group.  A failed start
  inside a digit run cannot succeed where the run's head failed (the
  characters after the run are unchanged), so the scan may skip whole runs.
  `re.findall(r'\d+', s)` lists maximal digit runs; the fallback takes the
  first.  Recursion is driven by a length fuel so the definitions stay
  structural and kernel-reducible; the fuel is always sufficient. -/

/-- Python's `\s` on ASCII text: space, tab, newline, vertical tab, form
feed, carriage return. -/
def isPySpace (c : Char) : Bool :=
  c = ' ' || c = '\t' || c = '\n' || c.toNat = 11 || c.toNat = 12 || c = '\r'

/-- Numeric value of a digit run, as `int` does on a match of `\d+`. -/
def digitsToNat (cs : List Char) : Nat :=
  cs.foldl (fun a c => a * 10 + (c.toNat - '0'.toNat)) 0

/-- Does the text after a digit run complete the `\s*/\s*\d+` tail? -/
def slashTailOk (cs : List Char) : Bool :=
  match cs.dropWhile isPySpace with
  | '/' :: r =>
    match r.dropWhile isPySpace with
    | c :: _ => c.isDigit
    | [] => false
  | _ => false

/-- The scan of `re.search(r'(\d+)\s*/\s*\d+', s)`, returning the captured
group as a number. -/
def searchSlashF : Nat → List Char → Option Nat
  | 0, _ => none
  | _, [] => none
  | fuel + 1, c :: rest =>
    if c.isDigit then
      let run := c :: rest.takeWhile Char.isDigit
      let tail := rest.dropWhile Char.isDigit
      if slashTailOk tail then some (digitsToNat run) else searchSlashF fuel tail
    else searchSlashF fuel rest

def searchSlash (cs : List Char) : Option Nat :=
  searchSlashF cs.length cs

/-- First maximal digit run: `re.findall(r'\d+', s)[0]`, when any exists. -/
def firstNumber : List Char → Option Nat
  | [] => none
  | c :: rest =>
    if c.isDigit then some (digitsToNat (c :: rest.takeWhile Char.isDigit))
    else firstNumber rest

/-- The two-stage extraction of `try_option_for_question`: the `X/Y` format
first, else the first number in the text. -/
def extractScore (cs : List Char) : Option Nat :=
  match searchSlash cs with
  | some v => some v
  | none => firstNumber cs

/-- Score interpretation (`algorithm.py` lines 213-235): `None` text, text
with no digits, and a parsed value exceeding `num_questions` are all
rejected (`none`); the code then returns 0 on those paths.  A negative
parse cannot arise: `\d+` matches digit runs only.  Rejection happens after
either extraction branch, exactly as the range check at line 233. -/
def interpretScore (numQuestions : Nat) (txt : Option String) : Option Nat :=
  match txt with
  | none => none
  | some s =>
    match extractScore s.toList with
    | none => none
    | some v => if v ≤ numQuestions then some v else none

/-! ## The solver state (`SimpleGreedyExamSolver.__init__`) -/

/-- One entry of `self.memory`: the per-question record
`{"options": {...}, "best_option": ..., "best_score": ...}`. -/
structure QMem where
  options : List (Nat × Nat)
  best_option : Nat
  best_score : Nat
  deriving DecidableEq, Repr

/-- The mutable attributes of `SimpleGreedyExamSolver` that the algorithm
reads and writes (`questions_file` / `attempts` / `start_time` are logging
only). -/
structure SolverState where
  num_questions : Nat
  num_options : Nat
  best_score : Nat
  best_answers : List Nat
  correct_answers : List (Option Nat)
  memory : List (Nat × QMem)
  total_trials : Nat
  deriving DecidableEq, Repr

/-- Python dict update: overwrite in place when the key exists, append
otherwise (insertion order preserved). -/
def assocSet {α : Type} (l : List (Nat × α)) (k : Nat) (v : α) : List (Nat × α) :=
  match l with
  | [] => [(k, v)]
  | (k', v') :: t => if k' = k then (k, v) :: t else (k', v') :: assocSet t k v

/-- `self.memory[q]`; the default mirrors the `__init__` record and is never
reached on the in-range keys the algorithm uses. -/
def memGet (st : SolverState) (q : Nat) : QMem :=
  (List.lookup q st.memory).getD ⟨[], 1, 0⟩

def memSet (st : SolverState) (q : Nat) (m : QMem) : SolverState :=
  { st with memory := assocSet st.memory q m }

/-- Truthiness of one `correct_answers` cell as `all(self.correct_answers)`
sees it: `None` and `0` are falsy, any other option is truthy. -/
def truthy (a : Option Nat) : Bool :=
  match a with
  | none => false
  | some v => v ≠ 0

/-- `all(self.correct_answers)` (`solve`, line 402). -/
def allConfirmedB (st : SolverState) : Bool :=
  st.correct_answers.all truthy

/-! ## The oracle and a single trial -/

/-- One response of the exam callback: a raised exception, or a pair
`(result_text, score_text)` with a possibly missing score text. -/
inductive OracleResp where
  | crash : OracleResp
  | ok : Option String → Option String → OracleResp
  deriving DecidableEq, Repr

/-- The guess submitted by `try_option_for_question`: the best-known
assignment with one slot overridden (lines 200-201). -/
def mkGuess (st : SolverState) (q opt : Nat) : List Nat :=
  st.best_answers.set q opt

/-- `try_option_for_question` (lines 197-242): increment `total_trials`,
make exactly one oracle call, parse and range-check the score text, and
return 0 on every failure path (exception, missing text, no digits,
out-of-range value).  The response stream is consumed one element per
call; an exhausted stream behaves as a raised exception. -/
def tryOptionS (st : SolverState) (q opt : Nat) (stream : List OracleResp) :
    Nat × SolverState × List OracleResp :=
  let st1 := { st with total_trials := st.total_trials + 1 }
  match stream with
  | [] => (0, st1, [])
  | OracleResp.crash :: rest => (0, st1, rest)
  | OracleResp.ok _ txt :: rest =>
    ((interpretScore st.num_questions txt).getD 0, st1, rest)

/-! ## Recording a systematic trial (`systematic_trial_phase`, lines 265-298) -/

/-- The per-option body of the systematic trial phase, given the parsed
score: record only when the score is positive; update the per-question
best, the global best (confirming on a perfect score), then re-point
`best_answers[q]` at the question's best option.  Returns the state and
whether the `improved` flag was raised (line 280). -/
def recordTrial (st : SolverState) (q opt score : Nat) : SolverState × Bool :=
  if 0 < score then
    let m := memGet st q
    let m1 := { m with options := assocSet m.options opt score }
    let mi : QMem × Bool :=
      if m1.best_score < score then ({ m1 with best_score := score, best_option := opt }, true)
      else (m1, false)
    let st1 := memSet st q mi.1
    let st2 :=
      if st1.best_score < score then
        let s := { st1 with best_score := score, best_answers := st1.best_answers.set q opt }
        if score = st1.num_questions then
          { s with correct_answers := s.correct_answers.set q (some opt) }
        else s
      else st1
    ({ st2 with best_answers := st2.best_answers.set q (memGet st2 q).best_option }, mi.2)
  else (st, false)

/-! ## The systematic trial phase (`systematic_trial_phase`, lines 244-310) -/

/-- Accumulator threaded through the phase: the state, the `improved` flag,
the log of issued trials — `(question, option, the question's
`correct_answers` cell at the moment the guess was generated)` — and the
unconsumed oracle responses. -/
structure PhaseOut where
  st : SolverState
  improved : Bool
  trials : List (Nat × Nat × Option Nat)
  stream : List OracleResp
  deriving DecidableEq, Repr

/-- One iteration of `for option in untried_options` (lines 264-300):
query the oracle through `try_option_for_question`, then record. -/
def doOption (q : Nat) (acc : PhaseOut) (opt : Nat) : PhaseOut :=
  let pre := acc.st.correct_answers.getD q none
  let r := tryOptionS acc.st q opt acc.stream
  let rec1 := recordTrial r.2.1 q opt r.1
  { st := rec1.1, improved := acc.improved || rec1.2,
    trials := acc.trials ++ [(q, opt, pre)], stream := r.2.2 }

/-- One iteration of the outer `for q_idx in range(...)` (lines 250-300):
skip a question already confirmed, compute its untried options once, and
run them in order. -/
def processQuestion (acc : PhaseOut) (q : Nat) : PhaseOut :=
  if (acc.st.correct_answers.getD q none).isSome then acc
  else
    let m := memGet acc.st q
    let untried := (List.range' 1 acc.st.num_options).filter
      (fun o => (List.lookup o m.options).isNone)
    untried.foldl (doOption q) acc

/-- The outer loop with its early exit: after each question, stop when the
best score has reached `num_questions` (lines 302-304). -/
def phaseAux : List Nat → PhaseOut → PhaseOut
  | [], acc => acc
  | q :: rest, acc =>
    let acc1 := processQuestion acc q
    if acc1.st.best_score = acc1.st.num_questions then acc1 else phaseAux rest acc1

/-- `systematic_trial_phase` (less its logging): returns the new state, the
`improved` flag, the issued trials and the remaining responses. -/
def systematicTrialPhase (st : SolverState) (stream : List OracleResp) : PhaseOut :=
  phaseAux (List.range st.num_questions) ⟨st, false, [], stream⟩

/-! ## Random forced change (`random_forced_change`, lines 312-330) -/

/-- `random_forced_change`, with `random.choice` made explicit: `r1`
selects the question among the unconfirmed ones, `r2` the replacement
option, each by index modulo the candidate count.  Returns `none` exactly
when the function returns `False` (nothing changeable, or no alternative
option), otherwise the updated state and `(q, previous, new)`. -/
def randomForcedChange (st : SolverState) (r1 r2 : Nat) :
    Option (SolverState × Nat × Nat × Nat) :=
  let changeable := (List.range st.correct_answers.length).filter
    (fun i => st.correct_answers.getD i none = none)
  match changeable with
  | [] => none
  | c0 :: cs =>
    let q := (c0 :: cs).getD (r1 % (cs.length + 1)) c0
    let cur := st.best_answers.getD q 1
    let possible := (List.range' 1 st.num_options).filter (fun o => o ≠ cur)
    match possible with
    | [] => none
    | p0 :: ps =>
      let newOpt := (p0 :: ps).getD (r2 % (ps.length + 1)) p0
      some ({ st with best_answers := st.best_answers.set q newOpt }, q, cur, newOpt)

/-- Recording the probe of a random forced change (`solve`, lines 440-453):
record only a positive score; on a strict improvement take it as the new
global and per-question best, confirming the slot only when the score is
perfect. -/
def recordRandom (st : SolverState) (q opt score : Nat) : SolverState :=
  if 0 < score then
    let m := memGet st q
    let st1 := memSet st q { m with options := assocSet m.options opt score }
    if st1.best_score < score then
      let m1 := memGet st1 q
      let m2 := { m1 with best_score := score, best_option := opt }
      let st2 := { st1 with best_score := score, memory := assocSet st1.memory q m2 }
      if score = st2.num_questions then
        { st2 with correct_answers := st2.correct_answers.set q (some opt) }
      else st2
    else st1
  else st

/-! ## One iteration of the solve loop (`solve`, lines 397-458)

  The loop body, as a step function: `none` means the loop exits (the
  `while` guard fails or a `break` is reached), `some` carries the next
  state, the remaining oracle responses and the plateau counter.  The
  plateau-reset branch (lines 407-417) only acts when the callback exposes
  `reset_exam`; the callback built in `main.py` is a plain function, so the
  branch never mutates solver state and is omitted.  `attempt_num` is
  logging only. -/

def solveStep (st : SolverState) (stream : List OracleResp) (r1 r2 plateau : Nat) :
    Option (SolverState × List OracleResp × Nat) :=
  if st.num_questions ≤ st.best_score then none
  else if allConfirmedB st then none
  else
    let out := systematicTrialPhase st stream
    if out.st.best_score = out.st.num_questions then none
    else
      let p1 := if out.improved then 0 else plateau + 1
      if out.improved then some (out.st, out.stream, p1)
      else
        match randomForcedChange out.st r1 r2 with
        | none => none
        | some (st1, q, _prev, newOpt) =>
          let r := tryOptionS st1 q newOpt out.stream
          let p2 := if r.2.1.best_score < r.1 then 0 else p1
          some (recordRandom r.2.1 q newOpt r.1, r.2.2, p2)

/-! ## AI initialization (`solve`, lines 383-396) -/

/-- The initialization block guarded by "memory is empty": adopt the AI
debate's answers, point every question's `best_option` at them, probe the
first question once, and on a positive score record it and assign it —
unconditionally — as the global best score (line 393). -/
def aiInit (st : SolverState) (ai : List Nat) (stream : List OracleResp) :
    SolverState × List OracleResp :=
  if (List.range st.num_questions).all (fun i => (memGet st i).options.isEmpty) then
    let st1 := { st with best_answers := ai }
    let st2 := (List.range st1.best_answers.length).foldl
      (fun s i => memSet s i { memGet s i with best_option := s.best_answers.getD i 1 }) st1
    let r := tryOptionS st2 0 (st2.best_answers.getD 0 1) stream
    if 0 < r.1 then
      let st3 := r.2.1
      let m := memGet st3 0
      let st4 := memSet st3 0
        { m with options := assocSet m.options (st3.best_answers.getD 0 1) r.1 }
      ({ st4 with best_score := r.1 }, r.2.2)
    else (r.2.1, r.2.2)
  else (st, stream)

/-! ## Checkpoint persistence (`save_memory` / `load_memory`, lines 48-99) -/

/-- The JSON layout written by `save_memory`: the five keys, with the
memory dictionary in its insertion order.  String keys are canonical
decimal, so they are carried as the numbers themselves. -/
structure Checkpoint where
  best_score : Nat
  best_answers : List Nat
  correct_answers : List (Option Nat)
  memory : List (Nat × QMem)
  total_trials : Nat
  deriving DecidableEq, Repr

/-- The anti-plateau measure of `load_memory` (lines 84-89): at a loaded
best score of 17 or more, re-initialize the memory record of every
unconfirmed question. -/
def antiPlateauClear (st : SolverState) : SolverState :=
  if 17 ≤ st.best_score then
    (List.range st.num_questions).foldl
      (fun s i => if s.correct_answers.getD i none = none then memSet s i ⟨[], 1, 0⟩ else s) st
  else st

/-- `load_memory` on an existing, well-formed checkpoint (lines 69-89):
copy the five fields into the solver, then apply the anti-plateau clear. -/
def loadMemory (ck : Checkpoint) (numQuestions numOptions : Nat) : SolverState :=
  antiPlateauClear
    { num_questions := numQuestions, num_options := numOptions,
      best_score := ck.best_score, best_answers := ck.best_answers,
      correct_answers := ck.correct_answers, memory := ck.memory,
      total_trials := ck.total_trials }

/-- `save_memory` (lines 50-57): serialize the five fields back out. -/
def saveMemory (st : SolverState) : Checkpoint :=
  { best_score := st.best_score, best_answers := st.best_answers,
    correct_answers := st.correct_answers, memory := st.memory,
    total_trials := st.total_trials }

/-! ## Final fill-in (`solve`, lines 460-468) -/

/-- The fill loop over an explicit index list. -/
def fillFrom (st : SolverState) : List Nat → SolverState
  | [] => st
  | i :: rest =>
    let st1 :=
      if st.correct_answers.getD i none = none then
        { st with correct_answers :=
            st.correct_answers.set i (some (memGet st i).best_option) }
      else st
    fillFrom st1 rest

/-- The fill-in executed before `solve` returns `correct_answers`: every
still-unconfirmed slot receives its question's current `best_option`. -/
def finalFill (st : SolverState) : SolverState :=
  fillFrom st (List.range st.num_questions)

/-! ## `deduce_best_options` (`exam_automation.py`, lines 114-131)

  Per question: fold the tries into per-option `(total_score, count)`
  statistics in first-occurrence order, average each option in exact
  rational arithmetic (standing in for Python float division on the small
  integer totals involved), and take `max(option_averages, key=...)` — the
  first key attaining the maximum, in insertion order — defaulting to
  option 1 when there are no tries. -/

/-- One recorded attempt `{"option": ..., "score": ...}`. -/
structure TryRec where
  option : Nat
  score : Int
  deriving DecidableEq, Repr

/-- Accumulate one try into the `(option, total_score, count)` statistics,
dict-style: update in place or append. -/
def bumpStat (acc : List (Nat × Int × Nat)) (o : Nat) (s : Int) : List (Nat × Int × Nat) :=
  match acc with
  | [] => [(o, s, 1)]
  | (o', t, c) :: rest =>
    if o' = o then (o', t + s, c + 1) :: rest else (o', t, c) :: bumpStat rest o s

def optionStats (tries : List TryRec) : List (Nat × Int × Nat) :=
  tries.foldl (fun acc t => bumpStat acc t.option t.score) []

def optionAverages (tries : List TryRec) : List (Nat × ℚ) :=
  (optionStats tries).map (fun p => (p.1, (p.2.1 : ℚ) / (p.2.2 : ℚ)))

/-- `max(option_averages, key=...) if option_averages else 1`: a left fold
keeping the incumbent on ties, so the first maximizer in insertion order
wins, exactly as Python's `max`. -/
def bestOptionOf (tries : List TryRec) : Nat :=
  match optionAverages tries with
  | [] => 1
  | p :: rest => (rest.foldl (fun best q => if best.2 < q.2 then q else best) p).1

/-- The per-question result record built by `deduce_best_options`. -/
structure DeduceResult where
  best_option : Nat
  average_scores : List (Nat × ℚ)
  tries : List (Nat × Nat)
  deriving DecidableEq, Repr

def mkDeduce (tries : List TryRec) : DeduceResult :=
  { best_option := bestOptionOf tries,
    average_scores := optionAverages tries,
    tries := (optionStats tries).map (fun p => (p.1, p.2.2)) }

/-- `deduce_best_options`: a pure map over the question records; the input
is read only and returned data is freshly built. -/
def deduce_best_options (questionData : List (String × List TryRec)) :
    List (String × DeduceResult) :=
  questionData.map (fun p => (p.1, mkDeduce p.2))

/-! ## List and association-list helper lemmas -/

theorem getD_set_self {α : Type} (l : List α) (i : Nat) (v d : α)
    (h : i < l.length) : (l.set i v).getD i d = v := by
  induction l generalizing i with
  | nil => simp at h
  | cons a t ih =>
    cases i with
    | zero => simp [List.getD]
    | succ j =>
      simp only [List.set, List.getD_cons_succ]
      exact ih j (by simpa using h)

theorem getD_set_ne {α : Type} (l : List α) (i j : Nat) (v d : α)
    (h : i ≠ j) : (l.set i v).getD j d = l.getD j d := by
  induction l generalizing i j with
  | nil => simp
  | cons a t ih =>
    cases i with
    | zero =>
      cases j with
      | zero => exact absurd rfl h
      | succ j' => simp [List.getD]
    | succ i' =>
      cases j with
      | zero => simp [List.getD]
      | succ j' =>
        simp only [List.set, List.getD_cons_succ]
        exact ih i' j' (by omega)

theorem getD_mem_cons (l : List Nat) (i d : Nat) : l.getD i d ∈ d :: l := by
  induction l generalizing i d with
  | nil => simp [List.getD]
  | cons a t ih =>
    cases i with
    | zero => simp [List.getD]
    | succ j =>
      rw [List.getD_cons_succ]
      rcases List.mem_cons.mp (ih j d) with h | h
      · rw [h]; exact List.mem_cons_self _ _
      · exact List.mem_cons_of_mem _ (List.mem_cons_of_mem _ h)

theorem lookup_of_all {α : Type} (l : List (Nat × α)) (p : Nat × α → Bool) (k : Nat) (v : α)
    (hall : l.all p = true) (hl : List.lookup k l = some v) : p (k, v) = true := by
  induction l with
  | nil => simp [List.lookup] at hl
  | cons a t ih =>
    rw [List.all_cons, Bool.and_eq_true] at hall
    by_cases hk : k == a.1
    · simp only [List.lookup, hk, cond_true] at hl
      obtain ⟨rfl⟩ := hl
      have : k = a.1 := by simpa using hk
      rw [this]
      exact (by simpa using hall.1)
    · simp only [List.lookup, hk, cond_false] at hl
      exact ih hall.2 hl

theorem assocSet_all {α : Type} (l : List (Nat × α)) (p : Nat × α → Bool) (k : Nat) (v : α)
    (hall : l.all p = true) (hv : p (k, v) = true) : (assocSet l k v).all p = true := by
  induction l with
  | nil => simpa [assocSet]
  | cons a t ih =>
    rw [List.all_cons, Bool.and_eq_true] at hall
    by_cases hk : a.1 = k
    · simp [assocSet, hk, hv, hall.2]
    · simp [assocSet, hk, hall.1, ih hall.2]

/-! ## Field-preservation and characterization lemmas for the updates -/

theorem tryOptionS_state (st : SolverState) (q opt : Nat) (stream : List OracleResp) :
    (tryOptionS st q opt stream).2.1 = { st with total_trials := st.total_trials + 1 } := by
  cases stream with
  | nil => rfl
  | cons r rest => cases r <;> rfl

theorem interpretScore_le (numQuestions : Nat) (txt : Option String) (v : Nat)
    (h : interpretScore numQuestions txt = some v) : v ≤ numQuestions := by
  cases txt with
  | none => simp [interpretScore] at h
  | some s =>
    simp only [interpretScore] at h
    rcases he : extractScore s.toList with _ | w
    · rw [he] at h; simp at h
    · rw [he] at h
      by_cases hw : w ≤ numQuestions
      · simp only [hw, if_true, Option.some.injEq] at h
        omega
      · simp [hw] at h

theorem tryOptionS_score_le (st : SolverState) (q opt : Nat) (stream : List OracleResp) :
    (tryOptionS st q opt stream).1 ≤ st.num_questions := by
  cases stream with
  | nil => simp [tryOptionS]
  | cons r rest =>
    cases r with
    | crash => simp [tryOptionS]
    | ok a txt =>
      simp only [tryOptionS]
      rcases h : interpretScore st.num_questions txt with _ | v
      · simp
      · simpa using interpretScore_le st.num_questions txt v h

theorem recordTrial_correct_eq (st : SolverState) (q opt score : Nat) :
    (recordTrial st q opt score).1.correct_answers =
      if st.best_score < score ∧ score = st.num_questions then
        st.correct_answers.set q (some opt)
      else st.correct_answers := by
  unfold recordTrial memSet
  by_cases h0 : 0 < score
  · by_cases hm : (memGet st q).best_score < score
    · by_cases hb : st.best_score < score
      · by_cases hn : score = st.num_questions
        · subst hn; simp [h0, hm, hb]
        · simp [h0, hm, hb, hn]
      · simp [h0, hm, hb]
    · by_cases hb : st.best_score < score
      · by_cases hn : score = st.num_questions
        · subst hn; simp [h0, hm, hb]
        · simp [h0, hm, hb, hn]
      · simp [h0, hm, hb]
  · have hz : score = 0 := by omega
    subst hz
    simp

theorem recordRandom_correct_eq (st : SolverState) (q opt score : Nat) :
    (recordRandom st q opt score).correct_answers =
      if st.best_score < score ∧ score = st.num_questions then
        st.correct_answers.set q (some opt)
      else st.correct_answers := by
  unfold recordRandom memSet
  by_cases h0 : 0 < score
  · by_cases hb : st.best_score < score
    · by_cases hn : score = st.num_questions
      · subst hn; simp [h0, hb]
      · simp [h0, hb, hn]
    · simp [h0, hb]
  · have hz : score = 0 := by omega
    subst hz
    simp

theorem recordTrial_zero (st : SolverState) (q opt : Nat) :
    recordTrial st q opt 0 = (st, false) := rfl

/-! ## Monotonicity of the best score across recorded attempts -/

theorem recordTrial_best_mono (st : SolverState) (q opt score : Nat) :
    st.best_score ≤ (recordTrial st q opt score).1.best_score := by
  unfold recordTrial memSet
  by_cases h0 : 0 < score
  · by_cases hm : (memGet st q).best_score < score
    · by_cases hb : st.best_score < score
      · simp [h0, hm, hb]
        by_cases hn : score = st.num_questions <;> simp [hn] <;> omega
      · simp [h0, hm, hb]
    · by_cases hb : st.best_score < score
      · simp [h0, hm, hb]
        by_cases hn : score = st.num_questions <;> simp [hn] <;> omega
      · simp [h0, hm, hb]
  · simp [h0]

theorem recordRandom_best_mono (st : SolverState) (q opt score : Nat) :
    st.best_score ≤ (recordRandom st q opt score).best_score := by
  unfold recordRandom memSet
  by_cases h0 : 0 < score
  · by_cases hb : st.best_score < score
    · simp [h0, hb]
      by_cases hn : score = st.num_questions <;> simp [hn] <;> omega
    · simp [h0, hb]
  · simp [h0]

theorem doOption_best_mono (q : Nat) (acc : PhaseOut) (opt : Nat) :
    acc.st.best_score ≤ (doOption q acc opt).st.best_score := by
  have h2 := recordTrial_best_mono (tryOptionS acc.st q opt acc.stream).2.1 q opt
    (tryOptionS acc.st q opt acc.stream).1
  have h3 : (tryOptionS acc.st q opt acc.stream).2.1.best_score = acc.st.best_score := by
    rw [tryOptionS_state]
  rw [h3] at h2
  exact h2

theorem foldl_doOption_best_mono (q : Nat) (opts : List Nat) (acc : PhaseOut) :
    acc.st.best_score ≤ (opts.foldl (doOption q) acc).st.best_score := by
  induction opts generalizing acc with
  | nil => simp
  | cons o rest ih =>
    calc acc.st.best_score ≤ (doOption q acc o).st.best_score := doOption_best_mono q acc o
    _ ≤ (rest.foldl (doOption q) (doOption q acc o)).st.best_score := ih _

theorem processQuestion_best_mono (acc : PhaseOut) (q : Nat) :
    acc.st.best_score ≤ (processQuestion acc q).st.best_score := by
  unfold processQuestion
  rcases hgd : acc.st.correct_answers.getD q none with _ | v
  · simp only [Option.isSome_none, Bool.false_eq_true, if_false]
    exact foldl_doOption_best_mono q _ acc
  · simp

theorem phaseAux_best_mono (qs : List Nat) (acc : PhaseOut) :
    acc.st.best_score ≤ (phaseAux qs acc).st.best_score := by
  induction qs generalizing acc with
  | nil => simp [phaseAux]
  | cons q rest ih =>
    simp only [phaseAux]
    by_cases hstop : (processQuestion acc q).st.best_score = (processQuestion acc q).st.num_questions
    · rw [if_pos hstop]
      exact processQuestion_best_mono acc q
    · rw [if_neg hstop]
      calc acc.st.best_score ≤ (processQuestion acc q).st.best_score :=
        processQuestion_best_mono acc q
      _ ≤ (phaseAux rest (processQuestion acc q)).st.best_score := ih _

theorem systematicTrialPhase_best_mono (st : SolverState) (stream : List OracleResp) :
    st.best_score ≤ (systematicTrialPhase st stream).st.best_score :=
  phaseAux_best_mono (List.range st.num_questions) ⟨st, false, [], stream⟩

/-! ## Boundedness of everything the oracle writes into the state -/

/-- All evidence held for one question is within `[0, n]`. -/
def qmBounded (n : Nat) (m : QMem) : Bool :=
  decide (m.best_score ≤ n) && m.options.all (fun p => decide (p.2 ≤ n))

/-- The global best score and every recorded per-option score are within
`[0, num_questions]`. -/
def stBounded (st : SolverState) : Bool :=
  decide (st.best_score ≤ st.num_questions) &&
    st.memory.all (fun p => qmBounded st.num_questions p.2)

theorem memGet_bounded (st : SolverState) (q : Nat)
    (h : st.memory.all (fun p => qmBounded st.num_questions p.2) = true) :
    qmBounded st.num_questions (memGet st q) = true := by
  unfold memGet
  rcases hl : List.lookup q st.memory with _ | m
  · simp [qmBounded]
  · simpa using lookup_of_all st.memory (fun p => qmBounded st.num_questions p.2) q m h hl

theorem recordTrial_bounded (st : SolverState) (q opt score : Nat)
    (hs : score ≤ st.num_questions) (h : stBounded st = true) :
    stBounded (recordTrial st q opt score).1 = true := by
  unfold stBounded at h
  rw [Bool.and_eq_true] at h
  obtain ⟨hbest, hmem⟩ := h
  have hqm := memGet_bounded st q hmem
  unfold qmBounded at hqm
  rw [Bool.and_eq_true] at hqm
  have hopts : ((memGet st q).options.all fun p => decide (p.2 ≤ st.num_questions)) = true :=
    hqm.2
  have hnewopts : ((assocSet (memGet st q).options opt score).all
      fun p => decide (p.2 ≤ st.num_questions)) = true :=
    assocSet_all _ _ opt score hopts (by simpa using hs)
  unfold recordTrial memSet
  by_cases h0 : 0 < score
  · by_cases hm : (memGet st q).best_score < score
    · by_cases hb : st.best_score < score
      · by_cases hn : score = st.num_questions
        · subst hn
          simp only [h0, hm, hb, if_true, if_pos rfl]
          simp only [stBounded, Bool.and_eq_true]
          constructor
          · simp
          · refine assocSet_all _ _ q _ hmem ?_
            simp [qmBounded, hnewopts]
        · simp only [h0, hm, hb, hn, if_true, if_false]
          simp only [stBounded, Bool.and_eq_true]
          constructor
          · simpa using hs
          · refine assocSet_all _ _ q _ hmem ?_
            simp [qmBounded, hs, hnewopts]
      · simp only [h0, hm, hb, if_true, if_false]
        simp only [stBounded, Bool.and_eq_true]
        constructor
        · simpa using hbest
        · refine assocSet_all _ _ q _ hmem ?_
          simp [qmBounded, hs, hnewopts]
    · by_cases hb : st.best_score < score
      · by_cases hn : score = st.num_questions
        · subst hn
          simp only [h0, hm, hb, if_true, if_false, if_pos rfl]
          simp only [stBounded, Bool.and_eq_true]
          constructor
          · simp
          · refine assocSet_all _ _ q _ hmem ?_
            simp only [qmBounded, Bool.and_eq_true]
            exact ⟨by simpa using hqm.1, hnewopts⟩
        · simp only [h0, hm, hb, hn, if_true, if_false]
          simp only [stBounded, Bool.and_eq_true]
          constructor
          · simpa using hs
          · refine assocSet_all _ _ q _ hmem ?_
            simp only [qmBounded, Bool.and_eq_true]
            exact ⟨by simpa using hqm.1, hnewopts⟩
      · simp only [h0, hm, hb, if_true, if_false]
        simp only [stBounded, Bool.and_eq_true]
        constructor
        · simpa using hbest
        · refine assocSet_all _ _ q _ hmem ?_
          simp only [qmBounded, Bool.and_eq_true]
          exact ⟨by simpa using hqm.1, hnewopts⟩
  · simp only [h0, if_false]
    simp only [stBounded, Bool.and_eq_true]
    exact ⟨by simpa using hbest, hmem⟩

theorem doOption_bounded (q : Nat) (acc : PhaseOut) (opt : Nat)
    (h : stBounded acc.st = true) : stBounded (doOption q acc opt).st = true := by
  unfold doOption
  have hsc := tryOptionS_score_le acc.st q opt acc.stream
  have hst := tryOptionS_state acc.st q opt acc.stream
  have hb : stBounded (tryOptionS acc.st q opt acc.stream).2.1 = true := by
    rw [hst]; simpa [stBounded] using h
  have hn : (tryOptionS acc.st q opt acc.stream).2.1.num_questions = acc.st.num_questions := by
    rw [hst]
  simp only
  exact recordTrial_bounded _ q opt _ (by rw [hn]; exact hsc) hb

theorem foldl_doOption_bounded (q : Nat) (opts : List Nat) (acc : PhaseOut)
    (h : stBounded acc.st = true) :
    stBounded ((opts.foldl (doOption q) acc)).st = true := by
  induction opts generalizing acc with
  | nil => simpa
  | cons o rest ih => exact ih _ (doOption_bounded q acc o h)

theorem processQuestion_bounded (acc : PhaseOut) (q : Nat)
    (h : stBounded acc.st = true) : stBounded (processQuestion acc q).st = true := by
  unfold processQuestion
  rcases hgd : acc.st.correct_answers.getD q none with _ | v
  · simp only [Option.isSome_none, Bool.false_eq_true, if_false]
    exact foldl_doOption_bounded q _ acc h
  · simpa

theorem phaseAux_bounded (qs : List Nat) (acc : PhaseOut)
    (h : stBounded acc.st = true) : stBounded (phaseAux qs acc).st = true := by
  induction qs generalizing acc with
  | nil => simpa [phaseAux]
  | cons q rest ih =>
    simp only [phaseAux]
    by_cases hstop : (processQuestion acc q).st.best_score = (processQuestion acc q).st.num_questions
    · rw [if_pos hstop]
      exact processQuestion_bounded acc q h
    · rw [if_neg hstop]
      exact ih _ (processQuestion_bounded acc q h)

theorem systematicTrialPhase_bounded (st : SolverState) (stream : List OracleResp)
    (h : stBounded st = true) : stBounded (systematicTrialPhase st stream).st = true :=
  phaseAux_bounded (List.range st.num_questions) ⟨st, false, [], stream⟩ h

/-! ## The final fill-in, slot by slot -/

theorem fillFrom_memory (l : List Nat) (st : SolverState) :
    (fillFrom st l).memory = st.memory := by
  induction l generalizing st with
  | nil => rfl
  | cons i rest ih =>
    unfold fillFrom
    by_cases h : st.correct_answers.getD i none = none
    · rw [if_pos h, ih]
    · rw [if_neg h, ih]

theorem fillFrom_length (l : List Nat) (st : SolverState) :
    (fillFrom st l).correct_answers.length = st.correct_answers.length := by
  induction l generalizing st with
  | nil => rfl
  | cons i rest ih =>
    unfold fillFrom
    by_cases h : st.correct_answers.getD i none = none
    · rw [if_pos h, ih]
      simp
    · rw [if_neg h, ih]

theorem fillFrom_getD_not_mem (l : List Nat) (st : SolverState) (i : Nat)
    (h : i ∉ l) : (fillFrom st l).correct_answers.getD i none =
      st.correct_answers.getD i none := by
  induction l generalizing st with
  | nil => rfl
  | cons j rest ih =>
    have hij : i ≠ j := fun he => h (he ▸ List.mem_cons_self j rest)
    have hrest : i ∉ rest := fun hm => h (List.mem_cons_of_mem j hm)
    unfold fillFrom
    by_cases hj : st.correct_answers.getD j none = none
    · rw [if_pos hj, ih _ hrest]
      exact getD_set_ne _ j i _ _ (fun he => hij he.symm)
    · rw [if_neg hj, ih _ hrest]

theorem fillFrom_getD_mem (l : List Nat) (st : SolverState) (i : Nat)
    (hmem : i ∈ l) (hnd : l.Nodup) (hlen : i < st.correct_answers.length) :
    (fillFrom st l).correct_answers.getD i none =
      some ((st.correct_answers.getD i none).getD (memGet st i).best_option) := by
  induction l generalizing st with
  | nil => simp at hmem
  | cons j rest ih =>
    rw [List.nodup_cons] at hnd
    rcases List.mem_cons.mp hmem with rfl | hin
    · unfold fillFrom
      by_cases hj : st.correct_answers.getD i none = none
      · rw [if_pos hj, fillFrom_getD_not_mem rest _ i hnd.1]
        rw [getD_set_self _ i _ _ hlen, hj]
        rfl
      · rw [if_neg hj, fillFrom_getD_not_mem rest _ i hnd.1]
        rcases ho : st.correct_answers.getD i none with _ | v
        · exact absurd ho hj
        · simp [ho]
    · have hij : i ≠ j := fun he => hnd.1 (he ▸ hin)
      unfold fillFrom
      by_cases hj : st.correct_answers.getD j none = none
      · rw [if_pos hj]
        have hl2 : i < (st.correct_answers.set j
            (some (memGet st j).best_option)).length := by simpa using hlen
        rw [ih _ hin hnd.2 hl2]
        rw [getD_set_ne _ j i _ _ (fun he => hij he.symm)]
        rfl
      · rw [if_neg hj]
        exact ih _ hin hnd.2 hlen

/-! ## Skipping confirmed slots -/

theorem processQuestion_skip (acc : PhaseOut) (q : Nat)
    (h : (acc.st.correct_answers.getD q none).isSome = true) :
    processQuestion acc q = acc := by
  unfold processQuestion
  rw [if_pos h]

theorem randomForcedChange_unconfirmed (st : SolverState) (r1 r2 : Nat)
    (st' : SolverState) (q a b : Nat)
    (h : randomForcedChange st r1 r2 = some (st', q, a, b)) :
    st.correct_answers.getD q none = none := by
  unfold randomForcedChange at h
  rcases hch : (List.range st.correct_answers.length).filter
      (fun i => st.correct_answers.getD i none = none) with _ | ⟨c0, cs⟩
  · rw [hch] at h; simp at h
  · rw [hch] at h
    dsimp only at h
    rcases hp : (List.range' 1 st.num_options).filter
        (fun o => o ≠ st.best_answers.getD ((c0 :: cs).getD (r1 % (cs.length + 1)) c0) 1)
        with _ | ⟨p0, ps⟩
    · rw [hp] at h; simp at h
    · rw [hp] at h
      dsimp only at h
      simp only [Option.some.injEq, Prod.mk.injEq] at h
      obtain ⟨-, hq, -, -⟩ := h
      have hmem : (c0 :: cs).getD (r1 % (cs.length + 1)) c0 ∈ c0 :: cs := by
        rcases List.mem_cons.mp (getD_mem_cons (c0 :: cs) (r1 % (cs.length + 1)) c0)
          with he | hm
        · rw [he]; exact List.mem_cons_self _ _
        · exact hm
      have hmemq : q ∈ c0 :: cs := by rw [← hq]; exact hmem
      have hf : q ∈ (List.range st.correct_answers.length).filter
          (fun i => st.correct_answers.getD i none = none) := by
        rw [hch]; exact hmemq
      simpa using (List.mem_filter.mp hf).2

/-! ## Characterizing one iteration of the solve loop -/

theorem randomForcedChange_best (st : SolverState) (r1 r2 : Nat)
    (st' : SolverState) (q a b : Nat)
    (h : randomForcedChange st r1 r2 = some (st', q, a, b)) :
    st'.best_score = st.best_score := by
  unfold randomForcedChange at h
  rcases hch : (List.range st.correct_answers.length).filter
      (fun i => st.correct_answers.getD i none = none) with _ | ⟨c0, cs⟩
  · rw [hch] at h; simp at h
  · rw [hch] at h
    dsimp only at h
    rcases hp : (List.range' 1 st.num_options).filter
        (fun o => o ≠ st.best_answers.getD ((c0 :: cs).getD (r1 % (cs.length + 1)) c0) 1)
        with _ | ⟨p0, ps⟩
    · rw [hp] at h; simp at h
    · rw [hp] at h
      dsimp only at h
      simp only [Option.some.injEq, Prod.mk.injEq] at h
      obtain ⟨hst, -, -, -⟩ := h
      rw [← hst]

theorem solveStep_none_char (st : SolverState) (stream : List OracleResp)
    (r1 r2 p : Nat) (h : solveStep st stream r1 r2 p = none) :
    st.num_questions ≤ st.best_score ∨ allConfirmedB st = true ∨
      (systematicTrialPhase st stream).st.best_score =
        (systematicTrialPhase st stream).st.num_questions ∨
      ((systematicTrialPhase st stream).improved = false ∧
        randomForcedChange (systematicTrialPhase st stream).st r1 r2 = none) := by
  unfold solveStep at h
  by_cases h1 : st.num_questions ≤ st.best_score
  · exact Or.inl h1
  · rw [if_neg h1] at h
    by_cases h2 : allConfirmedB st = true
    · exact Or.inr (Or.inl h2)
    · rw [if_neg h2] at h
      by_cases h3 : (systematicTrialPhase st stream).st.best_score =
          (systematicTrialPhase st stream).st.num_questions
      · exact Or.inr (Or.inr (Or.inl h3))
      · rw [if_neg h3] at h
        by_cases h4 : (systematicTrialPhase st stream).improved = true
        · rw [if_pos h4] at h
          simp at h
        · have h4f : (systematicTrialPhase st stream).improved = false := by
            simpa using h4
          rw [if_neg h4] at h
          rcases hr : randomForcedChange (systematicTrialPhase st stream).st r1 r2
            with _ | ⟨st1, q, prev, newOpt⟩
          · exact Or.inr (Or.inr (Or.inr ⟨h4f, rfl⟩))
          · rw [hr] at h
            simp at h

theorem solveStep_some_best_mono (st : SolverState) (stream : List OracleResp)
    (r1 r2 p : Nat) (res : SolverState × List OracleResp × Nat)
    (h : solveStep st stream r1 r2 p = some res) :
    st.best_score ≤ res.1.best_score := by
  unfold solveStep at h
  by_cases h1 : st.num_questions ≤ st.best_score
  · rw [if_pos h1] at h; simp at h
  · rw [if_neg h1] at h
    by_cases h2 : allConfirmedB st = true
    · rw [if_pos h2] at h; simp at h
    · rw [if_neg h2] at h
      by_cases h3 : (systematicTrialPhase st stream).st.best_score =
          (systematicTrialPhase st stream).st.num_questions
      · rw [if_pos h3] at h; simp at h
      · rw [if_neg h3] at h
        have hphase := systematicTrialPhase_best_mono st stream
        by_cases h4 : (systematicTrialPhase st stream).improved = true
        · rw [if_pos h4] at h
          obtain ⟨rfl⟩ := h
          exact hphase
        · rw [if_neg h4] at h
          rcases hr : randomForcedChange (systematicTrialPhase st stream).st r1 r2
            with _ | ⟨st1, q, prev, newOpt⟩
          · rw [hr] at h; simp at h
          · rw [hr] at h
            simp only [Option.some.injEq] at h
            have hb1 : st1.best_score = (systematicTrialPhase st stream).st.best_score :=
              randomForcedChange_best _ r1 r2 _ _ _ _ hr
            have hb2 : (tryOptionS st1 q newOpt (systematicTrialPhase st stream).stream).2.1.best_score
                = st1.best_score := by rw [tryOptionS_state]
            have hb3 := recordRandom_best_mono
              (tryOptionS st1 q newOpt (systematicTrialPhase st stream).stream).2.1 q newOpt
              (tryOptionS st1 q newOpt (systematicTrialPhase st stream).stream).1
            rw [hb2, hb1] at hb3
            have : res.1 = recordRandom
                (tryOptionS st1 q newOpt (systematicTrialPhase st stream).stream).2.1 q newOpt
                (tryOptionS st1 q newOpt (systematicTrialPhase st stream).stream).1 := by
              rw [← h]
            rw [this]
            exact le_trans hphase hb3

/-! ## Argmax structure of `deduce_best_options` -/

theorem maxFold_reaches (rest : List (Nat × ℚ)) (p : Nat × ℚ) :
    (rest.foldl (fun best q => if best.2 < q.2 then q else best) p) ∈ p :: rest := by
  induction rest generalizing p with
  | nil => simp
  | cons r rest' ih =>
    simp only [List.foldl_cons]
    rcases List.mem_cons.mp (ih (if p.2 < r.2 then r else p)) with he | hm
    · rw [he]
      by_cases hc : p.2 < r.2
      · rw [if_pos hc]; simp
      · rw [if_neg hc]; simp
    · simp [List.mem_cons.mpr (Or.inr (List.mem_cons.mpr (Or.inr hm)))]

theorem maxFold_ge (rest : List (Nat × ℚ)) (p : Nat × ℚ) :
    ∀ x ∈ p :: rest,
      x.2 ≤ (rest.foldl (fun best q => if best.2 < q.2 then q else best) p).2 := by
  induction rest generalizing p with
  | nil => simp
  | cons r rest' ih =>
    intro x hx
    simp only [List.foldl_cons]
    have hstep : ∀ y ∈ p :: r :: rest',
        y ∈ (if p.2 < r.2 then r else p) :: rest' ∨ y.2 ≤ (if p.2 < r.2 then r else p).2 := by
      intro y hy
      rcases List.mem_cons.mp hy with he | hy'
      · rw [he]
        by_cases hc : p.2 < r.2
        · rw [if_pos hc]; right; exact le_of_lt hc
        · rw [if_neg hc]; left; exact List.mem_cons_self _ _
      · rcases List.mem_cons.mp hy' with he | hy''
        · rw [he]
          by_cases hc : p.2 < r.2
          · rw [if_pos hc]; left; exact List.mem_cons_self _ _
          · rw [if_neg hc]; right; exact le_of_not_lt hc
        · left; exact List.mem_cons_of_mem _ hy''
    rcases hstep x hx with hm | hle
    · exact ih (if p.2 < r.2 then r else p) x hm
    · calc x.2 ≤ (if p.2 < r.2 then r else p).2 := hle
      _ ≤ _ := ih (if p.2 < r.2 then r else p) _ (List.mem_cons_self _ _)

theorem bumpStat_ne_nil (acc : List (Nat × Int × Nat)) (o : Nat) (s : Int) :
    bumpStat acc o s ≠ [] := by
  cases acc with
  | nil => simp [bumpStat]
  | cons a t =>
    unfold bumpStat
    by_cases h : a.1 = o
    · rw [if_pos h]; simp
    · rw [if_neg h]; simp

theorem foldl_bump_ne_nil (ts : List TryRec) (acc : List (Nat × Int × Nat))
    (h : acc ≠ []) : ts.foldl (fun a t => bumpStat a t.option t.score) acc ≠ [] := by
  induction ts generalizing acc with
  | nil => simpa
  | cons t rest ih => exact ih _ (bumpStat_ne_nil acc t.option t.score)

theorem optionStats_ne_nil (t : TryRec) (rest : List TryRec) :
    optionStats (t :: rest) ≠ [] := by
  unfold optionStats
  simp only [List.foldl_cons]
  exact foldl_bump_ne_nil rest _ (bumpStat_ne_nil [] t.option t.score)

/-! ## Claim C1 -/

/-- A 30-question state at best score 4, nothing confirmed, no evidence yet. -/
def exC1 : SolverState :=
  ⟨30, 4, 4, List.replicate 30 1, List.replicate 30 none,
    (List.range 30).map (fun i => (i, ⟨[], 1, 0⟩)), 0⟩

/-- Claim C1 as stated is false: the trial of option 2 for question 0
differs from the previous best assignment in exactly one slot and scores
5, strictly above the previous best 4, yet the solver does not record the
slot in `correct_answers` — confirmation happens only on a perfect score
(`algorithm.py` lines 288-291). -/
theorem claim_C1_counterexample :
    ((List.zip (mkGuess exC1 0 2) exC1.best_answers).countP (fun p => p.1 ≠ p.2)) = 1 ∧
    exC1.best_score < 5 ∧ 5 ≤ exC1.num_questions ∧
    (recordTrial exC1 0 2 5).1.best_score = 5 ∧
    (recordTrial exC1 0 2 5).1.correct_answers.getD 0 none = none := by decide

/-- Claim C1, amended: on both recording paths (systematic trial and
random-forced-change probe), the tried slot is confirmed with its trial
option exactly when the trial score strictly exceeds the previous best
score AND equals `num_questions`; a mere improvement leaves the slot
unconfirmed. -/
theorem claim_C1_amended (st : SolverState) (q opt score : Nat)
    (h : q < st.correct_answers.length) :
    (recordTrial st q opt score).1.correct_answers.getD q none =
      (if st.best_score < score ∧ score = st.num_questions then some opt
       else st.correct_answers.getD q none) ∧
    (recordRandom st q opt score).correct_answers.getD q none =
      (if st.best_score < score ∧ score = st.num_questions then some opt
       else st.correct_answers.getD q none) := by
  constructor
  · rw [recordTrial_correct_eq]
    by_cases hc : st.best_score < score ∧ score = st.num_questions
    · rw [if_pos hc, if_pos hc, getD_set_self _ q _ _ h]
    · rw [if_neg hc, if_neg hc]
  · rw [recordRandom_correct_eq]
    by_cases hc : st.best_score < score ∧ score = st.num_questions
    · rw [if_pos hc, if_pos hc, getD_set_self _ q _ _ h]
    · rw [if_neg hc, if_neg hc]

/-- A two-question state for instantiating the amended C1. -/
def exC1w : SolverState :=
  ⟨2, 2, 0, [1, 1], [none, none], [(0, ⟨[], 1, 0⟩), (1, ⟨[], 1, 0⟩)], 0⟩

/-- Witness for the amended C1 at a concrete perfect-score trial. -/
theorem claim_C1_witness :
    (recordTrial exC1w 0 2 2).1.correct_answers.getD 0 none =
      (if exC1w.best_score < 2 ∧ 2 = exC1w.num_questions then some 2
       else exC1w.correct_answers.getD 0 none) ∧
    (recordRandom exC1w 0 2 2).correct_answers.getD 0 none =
      (if exC1w.best_score < 2 ∧ 2 = exC1w.num_questions then some 2
       else exC1w.correct_answers.getD 0 none) :=
  claim_C1_amended exC1w 0 2 2 (by decide)

/-! ## Claim C2 -/

/-- A checkpoint of a stuck run: best score 17, nothing confirmed, evidence
recorded for option 2 of every question. -/
def exC2ck : Checkpoint :=
  ⟨17, List.replicate 30 1, List.replicate 30 none,
    (List.range 30).map (fun i => (i, ⟨[(2, 17)], 2, 17⟩)), 100⟩

/-- Claim C2 as stated is false: resuming from a checkpoint with best
score 17, `load_memory`'s anti-plateau measure clears every unconfirmed
question's memory, so the AI-initialization block runs and its score
assignment (`algorithm.py` line 393) is unconditional — a first trial
scoring 10 drags `best_score` down from 17 to 10. -/
theorem claim_C2_counterexample :
    (loadMemory exC2ck 30 4).best_score = 17 ∧
    (aiInit (loadMemory exC2ck 30 4) (List.replicate 30 1)
      [OracleResp.ok none (some "10/30")]).1.best_score = 10 ∧ 10 < 17 := by decide

/-- Claim C2, amended: `best_score` is non-decreasing across every update
of the solve loop proper — each systematic-trial recording, each
random-forced-change recording, a whole systematic trial phase, and a
whole loop iteration; only the AI-initialization assignment at line 393
escapes the monotonicity. -/
theorem claim_C2_amended :
    (∀ (st : SolverState) (q opt score : Nat),
      st.best_score ≤ (recordTrial st q opt score).1.best_score) ∧
    (∀ (st : SolverState) (q opt score : Nat),
      st.best_score ≤ (recordRandom st q opt score).best_score) ∧
    (∀ (st : SolverState) (stream : List OracleResp),
      st.best_score ≤ (systematicTrialPhase st stream).st.best_score) ∧
    (∀ (st : SolverState) (stream : List OracleResp) (r1 r2 p : Nat)
      (res : SolverState × List OracleResp × Nat),
      solveStep st stream r1 r2 p = some res → st.best_score ≤ res.1.best_score) :=
  ⟨recordTrial_best_mono, recordRandom_best_mono, systematicTrialPhase_best_mono,
    solveStep_some_best_mono⟩

/-- A state on which one loop iteration runs the random-change path. -/
def exC2w : SolverState :=
  ⟨2, 2, 1, [1, 1], [none, none],
    [(0, ⟨[(1, 1), (2, 1)], 1, 1⟩), (1, ⟨[(1, 1), (2, 1)], 1, 1⟩)], 7⟩

/-- The concrete result of that iteration. -/
def exC2wRes : SolverState × List OracleResp × Nat :=
  (solveStep exC2w [OracleResp.ok none (some "1/2")] 0 0 0).getD (exC2w, [], 0)

/-- Witness for the amended C2 at a concrete loop iteration. -/
theorem claim_C2_witness : exC2w.best_score ≤ exC2wRes.1.best_score :=
  claim_C2_amended.2.2.2 exC2w [OracleResp.ok none (some "1/2")] 0 0 0 exC2wRes (by decide)

/-! ## Claim C3 -/

/-- Two questions, two options, no evidence, nothing confirmed. -/
def exC3 : SolverState :=
  ⟨2, 2, 0, [1, 1], [none, none], [(0, ⟨[], 1, 0⟩), (1, ⟨[], 1, 0⟩)], 0⟩

def exC3stream : List OracleResp :=
  [OracleResp.ok none (some "2/2"), OracleResp.ok none (some "1/2")]

/-- Claim C3 as stated is false: when the first trial of question 0 scores
a perfect 2/2, the slot is confirmed as option 1 mid-phase, yet the inner
option loop (`algorithm.py` line 264) still generates and submits the
remaining untried option — the trial log records `(0, 2, some 1)`, a
subsequently generated trial proposing option 2 for a slot already
confirmed as 1. -/
theorem claim_C3_counterexample :
    (systematicTrialPhase exC3 exC3stream).trials = [(0, 1, none), (0, 2, some 1)] ∧
    (systematicTrialPhase exC3 exC3stream).st.correct_answers.getD 0 none = some 1 ∧
    (2 : Nat) ≠ 1 := by decide

/-- Claim C3, amended: confirmed slots are skipped at question
granularity — the systematic phase is a no-op on a question whose slot is
confirmed when its turn begins, and the random forced change only ever
selects an unconfirmed slot; only options of a slot confirmed during its
own inner loop can still be proposed for it. -/
theorem claim_C3_amended :
    (∀ (acc : PhaseOut) (q : Nat),
      (acc.st.correct_answers.getD q none).isSome = true → processQuestion acc q = acc) ∧
    (∀ (st : SolverState) (r1 r2 : Nat) (st' : SolverState) (q a b : Nat),
      randomForcedChange st r1 r2 = some (st', q, a, b) →
        st.correct_answers.getD q none = none) :=
  ⟨processQuestion_skip, randomForcedChange_unconfirmed⟩

/-- A phase accumulator whose question 0 is confirmed. -/
def exC3w : PhaseOut :=
  ⟨⟨2, 2, 1, [1, 1], [some 1, none], [(0, ⟨[(1, 1)], 1, 1⟩), (1, ⟨[], 1, 0⟩)], 0⟩,
    false, [], []⟩

/-- Witness for the amended C3 at a concrete skip and a concrete random
change. -/
theorem claim_C3_witness :
    processQuestion exC3w 0 = exC3w ∧ exC3w.st.correct_answers.getD 1 none = none :=
  ⟨claim_C3_amended.1 exC3w 0 (by decide),
   claim_C3_amended.2 exC3w.st 0 0 { exC3w.st with best_answers := [1, 2] } 1 1 2 (by decide)⟩

/-! ## Claim C4 -/

/-- Claim C4: score interpretation yields a value in `[0, N]` or rejects
(no digits, and parsed values above `N`; negatives cannot parse from
`\d+`), a trial's returned score never exceeds `num_questions`, and a
whole systematic trial phase keeps every recorded score — the global best
and all per-option evidence — within `[0, num_questions]`. -/
theorem claim_C4_score_in_range :
    (∀ (n : Nat) (txt : Option String) (v : Nat),
      interpretScore n txt = some v → v ≤ n) ∧
    interpretScore 30 (some "oops") = none ∧
    interpretScore 30 (some "45/30") = none ∧
    (∀ (st : SolverState) (q opt : Nat) (stream : List OracleResp),
      (tryOptionS st q opt stream).1 ≤ st.num_questions) ∧
    (∀ (st : SolverState) (stream : List OracleResp),
      stBounded st = true → stBounded (systematicTrialPhase st stream).st = true) :=
  ⟨interpretScore_le, by decide, by decide, tryOptionS_score_le, systematicTrialPhase_bounded⟩

/-- A bounded two-question state with partial evidence. -/
def exC4 : SolverState :=
  ⟨2, 2, 1, [1, 1], [none, none], [(0, ⟨[(1, 1)], 1, 1⟩), (1, ⟨[], 1, 0⟩)], 3⟩

/-- Witness for C4 at a concrete parse and a concrete phase. -/
theorem claim_C4_witness :
    (30 : Nat) ≤ 30 ∧
    stBounded (systematicTrialPhase exC4 [OracleResp.ok none (some "2/2")]).st = true :=
  ⟨claim_C4_score_in_range.1 30 (some "30/30") 30 (by decide),
   claim_C4_score_in_range.2.2.2.2 exC4 [OracleResp.ok none (some "2/2")] (by decide)⟩

/-! ## Claim C5 -/

/-- A non-converged state that has already made 1001 oracle queries: best
score 1 of 3, nothing confirmed, every option already tried. -/
def exC5 : SolverState :=
  ⟨3, 2, 1, [1, 1, 1], [none, none, none],
    [(0, ⟨[(1, 1), (2, 1)], 1, 1⟩), (1, ⟨[(1, 1), (2, 1)], 1, 1⟩),
      (2, ⟨[(1, 1), (2, 1)], 1, 1⟩)], 1001⟩

/-- Claim C5 as stated is false: there is no attempt budget and no aborted
state — from a non-converged state that has already issued 1001 oracle
queries, the loop iteration still continues and issues another query
(1002), exactly as `main.py` notes that `max_attempts` was removed. -/
theorem claim_C5_counterexample :
    exC5.total_trials = 1001 ∧ exC5.best_score < exC5.num_questions ∧
    allConfirmedB exC5 = false ∧
    (solveStep exC5 [OracleResp.ok none (some "1/3")] 0 0 0).isSome = true ∧
    ((solveStep exC5 [OracleResp.ok none (some "1/3")] 0 0 0).map
      (fun x => x.1.total_trials)).getD 0 = 1002 := by decide

/-- Claim C5, amended: the loop has no query budget — an iteration exits
only because the best score already reached `num_questions` (before or
during the phase), every slot is confirmed, or no random forced change is
possible; the query count `total_trials` plays no part in the decision. -/
theorem claim_C5_amended (st : SolverState) (stream : List OracleResp) (r1 r2 p : Nat)
    (h : solveStep st stream r1 r2 p = none) :
    st.num_questions ≤ st.best_score ∨ allConfirmedB st = true ∨
      (systematicTrialPhase st stream).st.best_score =
        (systematicTrialPhase st stream).st.num_questions ∨
      ((systematicTrialPhase st stream).improved = false ∧
        randomForcedChange (systematicTrialPhase st stream).st r1 r2 = none) :=
  solveStep_none_char st stream r1 r2 p h

/-- A converged one-question state. -/
def exC5w : SolverState := ⟨1, 2, 1, [1], [some 1], [(0, ⟨[(1, 1)], 1, 1⟩)], 4⟩

/-- Witness for the amended C5 at a concrete terminated state. -/
theorem claim_C5_witness :
    exC5w.num_questions ≤ exC5w.best_score ∨ allConfirmedB exC5w = true ∨
      (systematicTrialPhase exC5w []).st.best_score =
        (systematicTrialPhase exC5w []).st.num_questions ∨
      ((systematicTrialPhase exC5w []).improved = false ∧
        randomForcedChange (systematicTrialPhase exC5w []).st 0 0 = none) :=
  claim_C5_amended exC5w [] 0 0 0 (by decide)

/-! ## Claim C6 -/

/-- A checkpoint at the anti-plateau threshold with evidence on an
unconfirmed question. -/
def exC6 : Checkpoint := ⟨17, [1], [none], [(0, ⟨[(1, 17)], 1, 17⟩)], 3⟩

/-- Claim C6 as stated is false: loading a checkpoint whose best score is
17 or more triggers the anti-plateau clear (`load_memory` lines 84-89),
so writing the state straight back produces a different structure — the
unconfirmed question's evidence is gone. -/
theorem claim_C6_counterexample : saveMemory (loadMemory exC6 1 4) ≠ exC6 := by decide

/-- Claim C6, amended: the load-then-save round trip is the identity on
every checkpoint whose best score is below the anti-plateau threshold
of 17. -/
theorem claim_C6_amended (ck : Checkpoint) (nq nopt : Nat) (h : ck.best_score < 17) :
    saveMemory (loadMemory ck nq nopt) = ck := by
  unfold loadMemory antiPlateauClear
  rw [if_neg (show ¬ 17 ≤ ck.best_score from by omega)]
  rfl

/-- A below-threshold checkpoint. -/
def exC6w : Checkpoint := ⟨16, [1], [none], [(0, ⟨[(1, 16)], 1, 16⟩)], 3⟩

/-- Witness for the amended C6 at a concrete checkpoint. -/
theorem claim_C6_witness : saveMemory (loadMemory exC6w 1 4) = exC6w :=
  claim_C6_amended exC6w 1 4 (by decide)

/-! ## Claim C7 -/

/-- A 30-question state about to probe during an oracle failure. -/
def exC7 : SolverState :=
  ⟨30, 4, 5, List.replicate 30 1, List.replicate 30 none,
    (List.range 30).map (fun i => (i, ⟨[], 1, 0⟩)), 5⟩

/-- Claim C7 as stated is false: a raising oracle call is not retried at
all — `try_option_for_question` makes exactly one call, so after a crash
the following (valid) response is left unconsumed and the trial returns
score 0 immediately. -/
theorem claim_C7_counterexample :
    (tryOptionS exC7 0 2 [OracleResp.crash, OracleResp.ok none (some "6/30")]).1 = 0 ∧
    (tryOptionS exC7 0 2 [OracleResp.crash, OracleResp.ok none (some "6/30")]).2.2 =
      [OracleResp.ok none (some "6/30")] ∧
    (tryOptionS exC7 0 2 [OracleResp.crash, OracleResp.ok none (some "6/30")]).2.1 =
      { exC7 with total_trials := 6 } := by decide

/-- Claim C7, amended: there is no retry and no backoff — every trial
consumes exactly one oracle response and touches nothing in the state but
the `total_trials` counter; a crash yields score 0, and a zero score is
skipped by the recorder with no state update at all. -/
theorem claim_C7_amended :
    (∀ (st : SolverState) (q opt : Nat) (r : OracleResp) (rest : List OracleResp),
      (tryOptionS st q opt (r :: rest)).2.2 = rest ∧
      (tryOptionS st q opt (r :: rest)).2.1 =
        { st with total_trials := st.total_trials + 1 }) ∧
    (∀ (st : SolverState) (q opt : Nat) (rest : List OracleResp),
      (tryOptionS st q opt (OracleResp.crash :: rest)).1 = 0) ∧
    (∀ (st : SolverState) (q opt : Nat), recordTrial st q opt 0 = (st, false)) := by
  refine ⟨?_, ?_, ?_⟩
  · intro st q opt r rest
    cases r <;> exact ⟨rfl, rfl⟩
  · intro st q opt rest; rfl
  · intro st q opt; rfl

/-! ## Claim C8 -/

/-- Claim C8: the final fill-in makes the returned assignment total —
after `finalFill`, every slot holds its confirmed option if one was
recorded, and its question's current best-guess option otherwise; in
particular no slot is empty. -/
theorem claim_C8_final_fill_total (st : SolverState) (i : Nat)
    (h1 : i < st.num_questions) (h2 : i < st.correct_answers.length) :
    (finalFill st).correct_answers.getD i none =
      some ((st.correct_answers.getD i none).getD (memGet st i).best_option) ∧
    ((finalFill st).correct_answers.getD i none).isSome = true := by
  have hm := fillFrom_getD_mem (List.range st.num_questions) st i
    (List.mem_range.mpr h1) (List.nodup_range st.num_questions) h2
  exact ⟨hm, by rw [show finalFill st = fillFrom st (List.range st.num_questions) from rfl, hm]; rfl⟩

/-- A partially solved two-question state. -/
def exC8 : SolverState :=
  ⟨2, 2, 1, [1, 2], [some 1, none], [(0, ⟨[(1, 1)], 1, 1⟩), (1, ⟨[(2, 1)], 2, 1⟩)], 9⟩

/-- Witness for C8 at a concrete unconfirmed slot. -/
theorem claim_C8_witness :
    (finalFill exC8).correct_answers.getD 1 none =
      some ((exC8.correct_answers.getD 1 none).getD (memGet exC8 1).best_option) ∧
    ((finalFill exC8).correct_answers.getD 1 none).isSome = true :=
  claim_C8_final_fill_total exC8 1 (by decide) (by decide)

/-! ## Claim C9 -/

/-- Claim C9: a genuine oracle score of 0 is indistinguishable from a
failure at the trial interface — `"0/30"` parses to the legitimate score
0, yet the trial returns 0 for it exactly as it does for a raised
exception, a missing score text, or unparseable text; and the recorder
ignores a returned 0 entirely, so a true zero score is never written into
memory. -/
theorem claim_C9_zero_conflation :
    interpretScore 30 (some "0/30") = some 0 ∧
    (∀ (st : SolverState) (q opt : Nat) (r : Option String) (rest : List OracleResp),
      (tryOptionS st q opt (OracleResp.ok r (some "0/30") :: rest)).1 = 0) ∧
    (∀ (st : SolverState) (q opt : Nat) (rest : List OracleResp),
      (tryOptionS st q opt (OracleResp.crash :: rest)).1 = 0) ∧
    (∀ (st : SolverState) (q opt : Nat) (r : Option String) (rest : List OracleResp),
      (tryOptionS st q opt (OracleResp.ok r none :: rest)).1 = 0) ∧
    (∀ (st : SolverState) (q opt : Nat) (r txt : Option String) (rest : List OracleResp),
      interpretScore st.num_questions txt = none →
      (tryOptionS st q opt (OracleResp.ok r txt :: rest)).1 = 0) ∧
    (∀ (st : SolverState) (q opt : Nat), recordTrial st q opt 0 = (st, false)) := by
  refine ⟨by decide, ?_, ?_, ?_, ?_, ?_⟩
  · intro st q opt r rest
    have he : extractScore ['0', '/', '3', '0'] = some 0 := by decide
    simp [tryOptionS, interpretScore, he, Nat.zero_le]
  · intro st q opt rest; rfl
  · intro st q opt r rest; rfl
  · intro st q opt r txt rest h
    simp [tryOptionS, h]
  · intro st q opt; rfl

/-- A two-question state for the C9 witness. -/
def exC9 : SolverState :=
  ⟨2, 2, 0, [1, 1], [none, none], [(0, ⟨[], 1, 0⟩), (1, ⟨[], 1, 0⟩)], 0⟩

/-- Witness for C9 at a concrete unparseable response. -/
theorem claim_C9_witness :
    (tryOptionS exC9 0 2 [OracleResp.ok none (some "oops")]).1 = 0 :=
  claim_C9_zero_conflation.2.2.2.2.1 exC9 0 2 none (some "oops") [] (by decide)

/-! ## Claim C10 -/

/-- Claim C10: `deduce_best_options` maps each question record to a result
whose `best_option` maximizes the average recorded score over that
question's tried options (first maximizer in insertion order), defaulting
to option 1 on an empty tries list; the function is a total pure map and
leaves its input untouched. -/
theorem claim_C10_deduce_argmax (qd : List (String × List TryRec))
    (p : String × List TryRec) (hp : p ∈ qd) :
    (p.1, mkDeduce p.2) ∈ deduce_best_options qd ∧
    (p.2 = [] → (mkDeduce p.2).best_option = 1) ∧
    (p.2 ≠ [] → ∃ a : ℚ, ((mkDeduce p.2).best_option, a) ∈ optionAverages p.2 ∧
      ∀ x ∈ optionAverages p.2, x.2 ≤ a) := by
  refine ⟨?_, ?_, ?_⟩
  · unfold deduce_best_options
    exact List.mem_map.mpr ⟨p, hp, rfl⟩
  · intro he; rw [he]; rfl
  · intro hne
    rcases hl : p.2 with _ | ⟨t, ts⟩
    · exact absurd hl hne
    · have hstats := optionStats_ne_nil t ts
      rcases ha : optionAverages (t :: ts) with _ | ⟨a0, as⟩
      · exact absurd (List.map_eq_nil_iff.mp ha) hstats
      · refine ⟨(as.foldl (fun best q => if best.2 < q.2 then q else best) a0).2, ?_, ?_⟩
        · have hb : (mkDeduce (t :: ts)).best_option =
              (as.foldl (fun best q => if best.2 < q.2 then q else best) a0).1 := by
            show bestOptionOf (t :: ts) = _
            unfold bestOptionOf
            rw [ha]
          rw [hb]
          simpa using maxFold_reaches as a0
        · intro x hx
          exact maxFold_ge as a0 x hx

/-- A one-question record with three tries. -/
def exC10 : List (String × List TryRec) := [("q1", [⟨2, 3⟩, ⟨1, 3⟩, ⟨2, 1⟩])]

/-- Witness for C10 at a concrete question record. -/
theorem claim_C10_witness :
    ("q1", mkDeduce [⟨2, 3⟩, ⟨1, 3⟩, ⟨2, 1⟩]) ∈ deduce_best_options exC10 ∧
    (([⟨2, 3⟩, ⟨1, 3⟩, ⟨2, 1⟩] : List TryRec) = [] →
      (mkDeduce [⟨2, 3⟩, ⟨1, 3⟩, ⟨2, 1⟩]).best_option = 1) ∧
    (([⟨2, 3⟩, ⟨1, 3⟩, ⟨2, 1⟩] : List TryRec) ≠ [] →
      ∃ a : ℚ, ((mkDeduce [⟨2, 3⟩, ⟨1, 3⟩, ⟨2, 1⟩]).best_option, a) ∈
          optionAverages [⟨2, 3⟩, ⟨1, 3⟩, ⟨2, 1⟩] ∧
        ∀ x ∈ optionAverages [⟨2, 3⟩, ⟨1, 3⟩, ⟨2, 1⟩], x.2 ≤ a) :=
  claim_C10_deduce_argmax exC10 ("q1", [⟨2, 3⟩, ⟨1, 3⟩, ⟨2, 1⟩]) (by decide)

end ExamSolver
